import Mathlib

/-
  Verification of the Qt signal/slot resolution engine of the code browser
  generator (src/generator/qtsupport.cpp).

  The development shallowly embeds the string-processing core of
  handleSignalOrSlot / handleInvokeMethod and the candidate lookup walk
  lookUpCandidates.  Strings are lists of characters; the clang declaration
  universe is modelled by small read-only structures exposing exactly the
  queries the source performs (method name, parameter types with their
  reference/const flags and printed text, minimum required arguments, the
  first declared base of a class, and the pointee class of a method result
  type).

  The two nested scanning loops of the source (outer scan for a top-level
  comma or closing paren, inner scan over an angle-bracket group with a
  paren depth counter and a template-angle counter) are embedded as one
  structural left-to-right pass scanComb whose state is the current mode:
  none for the outer loop, some (depth, templDepth) while inside the
  angle-bracket subloop of lines 147-174.  The loops which re-start the scan
  after each argument, and the candidate walk (whose C++ original need not
  terminate, see the theorem on the d_func cycle), take an explicit fuel
  argument which strictly exceeds the number of loop iterations in every
  terminating run.
-/

/-- Character strings, as the byte/character sequences the source works on. -/
abbrev Str := List Char

/-- The NUL character (the source truncates the signature at an embedded NUL). -/
def nulChar : Char := Char.ofNat 0

/-- Characters removed by llvm::StringRef::trim (space, tab, NL, VT, FF, CR). -/
def isTrimChar (c : Char) : Bool :=
  c = ' ' ∨ c = Char.ofNat 9 ∨ c = Char.ofNat 10 ∨ c = Char.ofNat 11 ∨
    c = Char.ofNat 12 ∨ c = Char.ofNat 13

/-- Remove trailing trim characters. -/
def strTrimEnd (s : Str) : Str := (s.reverse.dropWhile isTrimChar).reverse

/-- StringRef::trim: remove leading and trailing whitespace. -/
def strTrim (s : Str) : Str := strTrimEnd (s.dropWhile isTrimChar)

/-- StringRef::starts_with. -/
def strStarts (pre s : Str) : Bool := decide (s.take pre.length = pre)

/-- StringRef::ends_with. -/
def strEnds (suf s : Str) : Bool :=
  decide (suf.length ≤ s.length) && decide (s.drop (s.length - suf.length) = suf)

/-- StringRef::find of a single character: index of its first occurrence. -/
def findChar (c : Char) : Str → Option Nat
  | [] => none
  | x :: xs => if x = c then some 0 else (findChar c xs).map (· + 1)

/-!  The declaration universe (read-only collaborator, clang in the source). -/

/-- A parameter type as the source queries it: whether it is a reference
type, whether the (referent) type is const qualified, and the printed
name of the underlying type under the suppress-scope printing policy.
getAsString prints these three fields the way clang does. -/
structure QualType where
  isRef : Bool
  isConst : Bool
  tyName : Str
deriving DecidableEq

/-- clang QualType::getAsString under the policy of lines 133-137:
"const X &", "X &", "const X" or "X". -/
def QualType.getAsString (t : QualType) : Str :=
  let base := if t.isConst then "const ".data ++ t.tyName else t.tyName
  if t.isRef then base ++ " &".data else base

/-- Lines 206-208: if the type is a reference to a const qualified type,
drop the reference; then remove the local const qualifier. -/
def stripParamType (t : QualType) : QualType :=
  let t1 := if t.isRef ∧ t.isConst then { t with isRef := false } else t
  if t1.isRef then t1 else { t1 with isConst := false }

/-- A CXXMethodDecl as the source queries it.  hasIdent models
getIdentifier() being non-null; resultPointee models getResultType:
none when the result type is null, some p when it is non-null with
p the class id its pointee refers to (none when not pointer-to-record). -/
structure Method where
  hasIdent : Bool
  name : Str
  params : List QualType
  minRequiredArguments : Nat
  resultPointee : Option (Option Nat)
deriving DecidableEq

/-- A CXXRecordDecl: whether a definition is available, the declared
methods in declaration order, and the class of the first declared base
(none when there is no base or the base is not a record type; both cases
make the walk pointer null at line 61-63). -/
structure ClassDecl where
  defined : Bool
  methods : List Method
  firstBase : Option Nat
deriving DecidableEq

/-- Line 52-54: a method participates in the name lookup when it has an
identifier and its name equals the searched name. -/
def methodMatches (methodName : Str) (m : Method) : Bool :=
  m.hasIdent && decide (m.name = methodName)

/-- Line 56: a method is remembered as the d_func accessor when it has an
identifier, is named d_func, and its result type is not null. -/
def isDFunc (m : Method) : Bool :=
  m.hasIdent && decide (m.name = "d_func".data) && m.resultPointee.isSome

/-- The d_func slot after scanning one class: it is only set when not
already set (the !d_func guard of line 56), to the first such method. -/
def dFuncUpdate (cls : ClassDecl) (acc : Option Method) : Option Method :=
  match acc with
  | some d => some d
  | none => cls.methods.find? isDFunc

/-- lookUpCandidates, lines 41-71, as a fuel-indexed walk.  One unit of
fuel is one iteration of the while loop; none means the fuel ran out
(the C++ loop can run forever, see the d_func cycle theorem).  Arguments
after the fuel: the current class pointer classIt, the d_func slot, and
the accumulated candidate list. -/
def lookUpCandidates (univ : List ClassDecl) (methodName : Str) :
    Nat → Option Nat → Option Method → List Method → Option (List Method)
  | 0, _, _, _ => none
  | _ + 1, none, _, candidates => some candidates
  | fuel + 1, some cid, dFunc, candidates =>
    match univ.get? cid with
    | none => some candidates
    | some cls =>
      if cls.defined then
        let candidates2 := candidates ++ cls.methods.filter (methodMatches methodName)
        let dFunc2 := dFuncUpdate cls dFunc
        match cls.firstBase with
        | some b => lookUpCandidates univ methodName fuel (some b) dFunc2 candidates2
        | none =>
          match dFunc2, candidates2 with
          | some d, [] =>
            lookUpCandidates univ methodName fuel (Option.join d.resultPointee) none []
          | _, _ => some candidates2
      else some candidates

/-!  The signature scanner (lines 141-180). -/

/-- The switch of lines 152-171: update the paren/bracket/brace depth and
the template-angle depth for one character of the angle-bracket subloop. -/
def angleStep (c : Char) (d t : Int) : Int × Int :=
  if c = '(' ∨ c = '[' ∨ c = Char.ofNat 123 then (d + 1, t)
  else if c = ')' ∨ c = ']' ∨ c = Char.ofNat 125 then (d - 1, t)
  else if c = '>' then (d, if d = 0 then t - 1 else t)
  else if c = '<' then (d, if d = 0 then t + 1 else t)
  else (d, t)

/-- The two nested scanning loops of lines 144-177 as one pass returning
the number of characters consumed before the terminating top-level comma
or closing paren (equal to the string length when none is found).  The
state is none in the outer loop; it is some (depth, templDepth) inside the
angle-bracket subloop, which the outer loop enters on a left angle bracket
with both counters zero.  The subloop checks its counters before
consuming a character (line 151), so the character that makes a counter
negative is itself consumed and scanning then resumes in the outer loop. -/
def scanComb : Str → Option (Int × Int) → Nat
  | [], _ => 0
  | c :: cs, none =>
    if c = ',' ∨ c = ')' then 0
    else if c = '<' then 1 + scanComb cs (some (0, 0))
    else 1 + scanComb cs none
  | c :: cs, some (d, t) =>
    let p := angleStep c d t
    1 + scanComb cs (if p.1 < 0 ∨ p.2 < 0 then none else some p)

/-- Length of the scan for the next top-level comma or closing paren
starting in the outer loop (searchPos - argPos of the source). -/
def scanArgL (s : Str) : Nat := scanComb s none

/-- Line 185: the argument fragment has the shape "const ... &". -/
def isConstAmp (a : Str) : Bool := strStarts "const ".data a && strEnds "&".data a

/-- Lines 185-186: strip a leading "const " and a trailing ampersand from
the argument fragment, then re-trim. -/
def stripConstAmp (a : Str) : Str :=
  if isConstAmp a then strTrim ((a.drop 6).take (a.length - 1 - 6)) else a

/-!  The fuzzy type-text comparison (lines 214-234). -/

/-- One step of the comparison loop per unit of fuel.  The loop of lines
217-234: equal characters advance both sides, a space on either side is
skipped, and when either side stands on an n beginning the eight
characters "nsigned " those eight characters are skipped on that side
(the source reads them through StringRef(it, 9).starts_with("nsigned ")).
The loop ends when either side is exhausted; the two match only when both
are (line 236). -/
def typeMatchF : Nat → Str → Str → Bool
  | _, [], [] => true
  | _, [], _ :: _ => false
  | _, _ :: _, [] => false
  | 0, _ :: _, _ :: _ => false
  | fuel + 1, s :: ss, p :: ps =>
    if s = p then typeMatchF fuel ss ps
    else if s = ' ' then typeMatchF fuel ss (p :: ps)
    else if p = ' ' then typeMatchF fuel (s :: ss) ps
    else if s = 'n' ∧ (s :: ss).take 8 = "nsigned ".data then
      typeMatchF fuel ((s :: ss).drop 8) (p :: ps)
    else if p = 'n' ∧ (p :: ps).take 8 = "nsigned ".data then
      typeMatchF fuel (s :: ss) ((p :: ps).drop 8)
    else false

/-- The comparison with enough fuel for every terminating run: each loop
iteration consumes at least one character from one of the sides. -/
def typeMatch (sig par : Str) : Bool := typeMatchF (sig.length + par.length) sig par

/-- Placeholder parameter type for out-of-range indexing (every use is
guarded by a length test, as in the source). -/
def defaultQT : QualType := ⟨false, false, []⟩

/-- Lines 203-240 for one candidate: strip the parameter type, print it,
trim the printed text, and compare it with the argument fragment. -/
def argMatches (fragment : Str) (t : QualType) : Bool :=
  typeMatch fragment (strTrim (stripParamType t).getAsString)

/-- Lines 195-243: prune the candidates against one argument fragment.
A candidate is erased when it has fewer than argIdx + 1 parameters
(line 197) or when its argIdx-th parameter does not match (line 236). -/
def pruneArg (fragment : Str) (argIdx : Nat) (candidates : List Method) : List Method :=
  candidates.filter fun m =>
    decide (argIdx + 1 ≤ m.params.length) && argMatches fragment (m.params.getD argIdx defaultQT)

/-- Printed text of the i-th parameter (line 260), without any stripping. -/
def printedParam (m : Method) (i : Nat) : Str := (m.params.getD i defaultQT).getAsString

/-- The predicate of the final remove_if (lines 255-263), as the condition
to KEEP a candidate: it is removed when it requires more arguments than
were supplied, unless it has exactly one more parameter and that trailing
parameter prints as QPrivateSignal. -/
def finalKeep (argCount : Nat) (m : Method) : Bool :=
  !(decide (argCount < m.minRequiredArguments) &&
    !(decide (m.params.length = argCount + 1) &&
      decide (printedParam m argCount = "QPrivateSignal".data)))

/-- The final filter of lines 254-263. -/
def finalFilter (argCount : Nat) (candidates : List Method) : List Method :=
  candidates.filter (finalKeep argCount)

/-- The argument loop of lines 139-248, one unit of fuel per iteration,
operating on the suffix of the signature starting at argPos.  Returns
none for the in-loop return of line 180 (the scan ran off the end of the
string); otherwise some (arg, leftover, candidates) where leftover is the
suffix starting at the final argPos — the source then requires argPos to
equal the signature size (line 250), i.e. leftover to be empty.  The fuel
never runs out when it is at least the length of the suffix, since every
iteration consumes at least one character; the fuel-zero value is the
loop exit for an empty suffix. -/
def resolveLoopF : Nat → Str → Nat → List Method → Option (Nat × Str × List Method)
  | 0, rem, argIdx, candidates => some (argIdx, rem, candidates)
  | fuel + 1, rem, argIdx, candidates =>
    if rem = [] ∨ candidates = [] then some (argIdx, rem, candidates)
    else
      let k := scanArgL rem
      if k = rem.length then none
      else
        let fragment := stripConstAmp (strTrim (rem.take k))
        let term := rem.getD k ' '
        let rest := rem.drop (k + 1)
        if fragment = [] ∧ term = ')' ∧ argIdx = 0 then some (argIdx, rest, candidates)
        else
          let candidates2 := pruneArg fragment argIdx candidates
          if term = ')' then some (argIdx + 1, rest, candidates2)
          else resolveLoopF fuel rest (argIdx + 1) candidates2

/-- The argument loop with its canonical fuel. -/
def resolveLoop (rem : Str) (argIdx : Nat) (candidates : List Method) :
    Option (Nat × Str × List Method) :=
  resolveLoopF rem.length rem argIdx candidates

/-- Lines 115-128: trim the literal, reject strings shorter than four
characters, truncate at an embedded NUL and re-trim, and locate the first
left and right parens; fail when there is no right paren, when the right
paren precedes the left one, or when the left paren sits at index < 2.
Returns the processed signature together with the left paren index. -/
def checkSignature (raw : Str) : Option (Str × Nat) :=
  let s0 := strTrim raw
  if s0.length < 4 then none
  else
    let s := match findChar nulChar s0 with
      | some i => strTrim (s0.take i)
      | none => s0
    match findChar '(' s, findChar ')' s with
    | some lp, some rp => if rp < lp ∨ lp < 2 then none else some (s, lp)
    | some _, none => none
    | none, _ => none

/-- Lines 139-268 given the located candidates: run the argument loop,
require the scan to have consumed the signature exactly (line 250), apply
the final filter, and return the first surviving candidate (line 268) —
the declaration whose use gets registered — or none for NoMatch. -/
def resolveWithCandidates (s : Str) (lp : Nat) (candidates : List Method) : Option Method :=
  match resolveLoop (s.drop (lp + 1)) 0 candidates with
  | none => none
  | some (argCount, leftover, cands1) =>
    if leftover = [] then
      match finalFilter argCount cands1 with
      | [] => none
      | m :: _ => some m
    else none

/-- handleSignalOrSlot from the signature string on (the AST plumbing of
lines 81-112 that extracts objClass and the literal is outside the core):
validate the signature, extract the method name as the trimmed slice
strictly between index 1 and the left paren (line 128 — the first
character is the SIGNAL/SLOT code marker), look up the candidates, and
resolve.  The result is the method whose use is registered, none when no
use is registered.  fuel bounds the lookup walk. -/
def handleSignalOrSlot (univ : List ClassDecl) (objClass : Nat) (raw : Str)
    (fuel : Nat) : Option Method :=
  match checkSignature raw with
  | none => none
  | some (s, lp) =>
    match lookUpCandidates univ (strTrim ((s.drop 1).take (lp - 1))) fuel
        (some objClass) none [] with
    | none => none
    | some candidates => resolveWithCandidates s lp candidates

/-- The argument loop of lines 139-248 with the pruning stripped out,
returning the argument fragments the scan extracts: the scan positions,
the fragments and the success of the pass do not depend on the candidate
list (other than through its emptiness, which cuts the loop short), so
this is the tokenizing skeleton of the same loop, with the final
argPos = size check of line 250 folded into the paren/exhaustion cases. -/
def tokenizeArgsF : Nat → Str → Nat → Option (List Str)
  | 0, _, _ => some []
  | fuel + 1, rem, argIdx =>
    if rem = [] then some []
    else
      let k := scanArgL rem
      if k = rem.length then none
      else
        let fragment := stripConstAmp (strTrim (rem.take k))
        let term := rem.getD k ' '
        let rest := rem.drop (k + 1)
        if fragment = [] ∧ term = ')' ∧ argIdx = 0 then
          if rest = [] then some [] else none
        else if term = ')' then
          if rest = [] then some [fragment] else none
        else (tokenizeArgsF fuel rest (argIdx + 1)).map (fragment :: ·)

/-- The tokenizing loop with its canonical fuel. -/
def tokenizeArgs (rem : Str) (argIdx : Nat) : Option (List Str) :=
  tokenizeArgsF rem.length rem argIdx

/-- Full tokenization of a raw signature string: the validation and
method-name extraction of lines 115-128 followed by the argument scan;
some (methodName, fragments) on success, none when the source would
resolve to NoMatch for a syntactic reason. -/
def tokenizeSignature (raw : Str) : Option (Str × List Str) :=
  match checkSignature raw with
  | none => none
  | some (s, lp) =>
    (tokenizeArgs (s.drop (lp + 1)) 0).map
      (fun args => (strTrim ((s.drop 1).take (lp - 1)), args))

/-- handleInvokeMethod, lines 299-331, from the method-name string on:
reject an empty name (line 319), look the name up, and register a use
exactly when a single candidate was found (line 324). -/
def handleInvokeMethod (univ : List ClassDecl) (objClass : Nat) (methodName : Str)
    (fuel : Nat) : Option Method :=
  if methodName = [] then none
  else
    match lookUpCandidates univ methodName fuel (some objClass) none [] with
    | some [m] => some m
    | _ => none

/-!  Spec-side builders and predicates used to state the claims. -/

/-- join(args, ",") of the round-trip claim. -/
def joinArgs : List Str → Str
  | [] => []
  | [a] => a
  | a :: b :: t => a ++ ',' :: joinArgs (b :: t)

/-- An argument fragment the scanner passes over completely, stopping at
whatever terminator follows it: the formal counterpart of containing no
top-level comma or paren and only balanced nested groups. -/
def scanSkips (a : Str) : Prop :=
  ∀ rest : Str, scanArgL (a ++ rest) = a.length + scanArgL rest

/-- A base-class chain as walked by lookUpCandidates: every class on it
is present and defined, declares no method with the searched name, and
links to the next one as its first declared base; the last one has no
base. -/
def chainLinked (univ : List ClassDecl) (methodName : Str) : List Nat → Prop
  | [] => False
  | [c] => ∃ cls, univ.get? c = some cls ∧ cls.defined = true ∧
      cls.methods.filter (methodMatches methodName) = [] ∧ cls.firstBase = none
  | c :: c2 :: cs =>
    (∃ cls, univ.get? c = some cls ∧ cls.defined = true ∧
      cls.methods.filter (methodMatches methodName) = [] ∧ cls.firstBase = some c2) ∧
    chainLinked univ methodName (c2 :: cs)

/-- The d_func slot accumulated along a chain of classes. -/
def chainDFunc (univ : List ClassDecl) : Option Method → List Nat → Option Method
  | acc, [] => acc
  | acc, c :: cs =>
    chainDFunc univ
      (match univ.get? c with
       | some cls => dFuncUpdate cls acc
       | none => acc) cs

/-- Candidate list of the loop result (empty for the hard failure). -/
def loopCands (fuel : Nat) (rem : Str) (argIdx : Nat) (candidates : List Method) :
    List Method :=
  match resolveLoopF fuel rem argIdx candidates with
  | none => []
  | some r => r.2.2

/-!  Concrete declaration universes for the example-based claims. -/

/-- The parameter type int. -/
def intT : QualType := ⟨false, false, "int".data⟩

/-- Counter::increment(). -/
def inc0 : Method := ⟨true, "increment".data, [], 0, some none⟩

/-- Counter::increment(int). -/
def incInt : Method := ⟨true, "increment".data, [intT], 1, some none⟩

/-- A universe with the single class Counter declaring increment() and
increment(int); the class has id 0. -/
def univCounter : List ClassDecl := [⟨true, [inc0, incInt], none⟩]

/-- B::slotName(int). -/
def slotM : Method := ⟨true, "slotName".data, [intT], 1, some none⟩

/-- A::d_func(), returning a pointer to class B (id 1). -/
def dfA : Method := ⟨true, "d_func".data, [], 0, some (some 1)⟩

/-- A universe with class A (id 0, only method d_func returning B*) and
class B (id 1, declaring slotName(int)). -/
def univAB : List ClassDecl := [⟨true, [dfA], none⟩, ⟨true, [slotM], none⟩]

/-- A d_func accessor returning a pointer to its own class (id 0): legal
C++ (class A has method A *d_func();) but cyclic. -/
def dLoop : Method := ⟨true, "d_func".data, [], 0, some (some 0)⟩

/-- The universe with the single class whose d_func points back to it. -/
def univLoop : List ClassDecl := [⟨true, [dLoop], none⟩]

/-- The parameter type QMap<int,QString> (printed with suppressed scope). -/
def qmapT : QualType := ⟨false, false, "QMap<int,QString>".data⟩

/-- f(QMap<int,QString>, int). -/
def fMapM : Method := ⟨true, "f".data, [qmapT, intT], 2, some none⟩

/-- A universe with one class declaring f(QMap<int,QString>, int). -/
def univMap : List ClassDecl := [⟨true, [fMapM], none⟩]

/-!  General helper lemmas about the string utilities. -/

theorem take_len_append (a b : Str) : (a ++ b).take a.length = a := by
  induction a with
  | nil => rfl
  | cons x xs ih => simp [ih]

theorem drop_len_add_append (a b : Str) (k : Nat) :
    (a ++ b).drop (a.length + k) = b.drop k := by
  induction a with
  | nil => simp
  | cons x xs ih => simp [Nat.succ_add, ih]

theorem getD_len_append (a b : Str) (d : Char) : (a ++ b).getD a.length d = b.headD d := by
  induction a with
  | nil => cases b <;> rfl
  | cons x xs ih => simpa using ih

theorem findChar_not_mem (c : Char) (l : Str) (h : c ∉ l) : findChar c l = none := by
  induction l with
  | nil => rfl
  | cons x xs ih =>
    have hx : ¬ x = c := by intro he; exact h (by simp [he])
    have hxs : c ∉ xs := fun hm => h (List.mem_cons_of_mem _ hm)
    simp [findChar, hx, ih hxs]

theorem findChar_append (c : Char) (l1 l2 : Str) (h : c ∉ l1) :
    findChar c (l1 ++ l2) = (findChar c l2).map (· + l1.length) := by
  induction l1 with
  | nil =>
    simp only [List.nil_append, List.length_nil]
    cases h2 : findChar c l2 <;> simp [h2]
  | cons x xs ih =>
    have hx : ¬ x = c := by intro he; exact h (by simp [he])
    have hxs : c ∉ xs := fun hm => h (List.mem_cons_of_mem _ hm)
    rw [List.cons_append]
    simp only [findChar, hx, if_false, ih hxs]
    cases findChar c l2 <;> simp [Nat.add_assoc]

theorem findChar_mem (c : Char) (l : Str) (h : c ∈ l) : ∃ j, findChar c l = some j := by
  induction l with
  | nil => cases h
  | cons x xs ih =>
    by_cases hx : x = c
    · exact ⟨0, by simp [findChar, hx]⟩
    · have hc : c ∈ xs := by
        cases h with
        | head => exact absurd rfl hx
        | tail _ hm => exact hm
      obtain ⟨j, hj⟩ := ih hc
      exact ⟨j + 1, by simp [findChar, hx, hj]⟩

theorem strTrimEnd_concat (l : Str) (b : Char) (hb : isTrimChar b = false) :
    strTrimEnd (l ++ [b]) = l ++ [b] := by
  simp [strTrimEnd, List.reverse_append, List.dropWhile_cons, hb]

theorem strTrim_marker (a : Char) (l : Str) (b : Char) (ha : isTrimChar a = false)
    (hb : isTrimChar b = false) : strTrim (a :: (l ++ [b])) = a :: (l ++ [b]) := by
  rw [strTrim, List.dropWhile_cons]
  simp only [ha, if_false]
  rw [show a :: (l ++ [b]) = (a :: l) ++ [b] from rfl]
  exact strTrimEnd_concat _ _ hb

theorem mem_joinArgs (x : Char) (args : List Str) (h : x ∈ joinArgs args) :
    x = ',' ∨ ∃ a ∈ args, x ∈ a := by
  induction args with
  | nil => cases h
  | cons a rest ih =>
    cases rest with
    | nil => exact Or.inr ⟨a, by simp, h⟩
    | cons b t =>
      rw [joinArgs] at h
      rcases List.mem_append.mp h with h1 | h1
      · exact Or.inr ⟨a, by simp, h1⟩
      · cases h1 with
        | head => exact Or.inl rfl
        | tail _ hm =>
          rcases ih hm with h' | ⟨a', ha', hx⟩
          · exact Or.inl h'
          · exact Or.inr ⟨a', by simp [ha'], hx⟩

theorem scanArgL_comma (l : Str) : scanArgL (',' :: l) = 0 := by
  simp [scanArgL, scanComb]

theorem scanArgL_rparen (l : Str) : scanArgL (')' :: l) = 0 := by
  simp [scanArgL, scanComb]

theorem scanSkips_plain (a : Str) (h : ∀ c ∈ a, c ≠ ',' ∧ c ≠ ')' ∧ c ≠ '<') :
    scanSkips a := by
  induction a with
  | nil => intro rest; simp [scanSkips]
  | cons c cs ih =>
    intro rest
    obtain ⟨h1, h2, h3⟩ := h c (List.mem_cons_self c cs)
    have ihs := ih (fun x hx => h x (List.mem_cons_of_mem _ hx)) rest
    have hno : ¬(c = ',' ∨ c = ')') := by tauto
    rw [List.cons_append, scanArgL, scanComb, if_neg hno, if_neg h3]
    rw [scanArgL] at ihs
    rw [ihs]
    simp [scanArgL]
    omega

/-!  Claim theorems. -/

/-- Claim C1: during a single resolution pass the candidate set only ever
shrinks.  Per-argument pruning and the final minimum-arguments filter
produce sublists (no element is ever added) of non-increasing length; the
argument loop leaves an empty candidate set empty no matter how much of
the signature remains; the whole post-lookup resolution on an empty
candidate set is NoMatch (no use is registered); and across the whole
argument loop the candidate list length is non-increasing. -/
theorem c1_candidate_pruning_monotone :
    (∀ (fragment : Str) (i : Nat) (cs : List Method),
        List.Sublist (pruneArg fragment i cs) cs ∧
        (pruneArg fragment i cs).length ≤ cs.length) ∧
    (∀ (a : Nat) (cs : List Method),
        List.Sublist (finalFilter a cs) cs ∧ (finalFilter a cs).length ≤ cs.length) ∧
    (∀ (fuel : Nat) (rem : Str) (i : Nat),
        resolveLoopF fuel rem i [] = some (i, rem, [])) ∧
    (∀ (s : Str) (lp : Nat), resolveWithCandidates s lp [] = none) ∧
    (∀ (fuel : Nat) (rem : Str) (i : Nat) (cs : List Method),
        (loopCands fuel rem i cs).length ≤ cs.length) := by
  have h3 : ∀ (fuel : Nat) (rem : Str) (i : Nat),
      resolveLoopF fuel rem i [] = some (i, rem, []) := by
    intro fuel rem i
    cases fuel with
    | zero => rfl
    | succ n => simp [resolveLoopF]
  have h5 : ∀ (fuel : Nat) (rem : Str) (i : Nat) (cs : List Method),
      (loopCands fuel rem i cs).length ≤ cs.length := by
    intro fuel
    induction fuel with
    | zero => intro rem i cs; simp [loopCands, resolveLoopF]
    | succ n ih =>
      intro rem i cs
      by_cases hempty : rem = [] ∨ cs = []
      · have hres : resolveLoopF (n + 1) rem i cs = some (i, rem, cs) := by
          rw [resolveLoopF, if_pos hempty]
        simp only [loopCands, hres]
        exact Nat.le_refl _
      · by_cases hk : scanArgL rem = rem.length
        · have hres : resolveLoopF (n + 1) rem i cs = none := by
            simp only [resolveLoopF, if_neg hempty, if_pos hk]
          simp only [loopCands, hres]
          exact Nat.zero_le _
        · by_cases hfrag : stripConstAmp (strTrim (rem.take (scanArgL rem))) = [] ∧
              rem.getD (scanArgL rem) ' ' = ')' ∧ i = 0
          · have hres : resolveLoopF (n + 1) rem i cs
                = some (i, rem.drop (scanArgL rem + 1), cs) := by
              simp only [resolveLoopF, if_neg hempty, if_neg hk, if_pos hfrag]
            simp only [loopCands, hres]
            exact Nat.le_refl _
          · by_cases hterm : rem.getD (scanArgL rem) ' ' = ')'
            · have hres : resolveLoopF (n + 1) rem i cs
                  = some (i + 1, rem.drop (scanArgL rem + 1),
                      pruneArg (stripConstAmp (strTrim (rem.take (scanArgL rem)))) i cs) := by
                simp only [resolveLoopF, if_neg hempty, if_neg hk, if_neg hfrag,
                  if_pos hterm]
              simp only [loopCands, hres]
              exact List.length_filter_le _ _
            · have hres : resolveLoopF (n + 1) rem i cs
                  = resolveLoopF n (rem.drop (scanArgL rem + 1)) (i + 1)
                      (pruneArg (stripConstAmp (strTrim (rem.take (scanArgL rem)))) i cs) := by
                simp only [resolveLoopF, if_neg hempty, if_neg hk, if_neg hfrag,
                  if_neg hterm]
              simp only [loopCands, hres]
              exact le_trans (ih _ _ _) (List.length_filter_le _ _)
  refine ⟨fun f i cs => ⟨List.filter_sublist _, List.length_filter_le _ _⟩,
    fun a cs => ⟨List.filter_sublist _, List.length_filter_le _ _⟩, h3, ?_, h5⟩
  intro s lp
  simp [resolveWithCandidates, resolveLoop, h3, finalFilter]

/-- Claim C2 counterexample: running the full resolution on the exact
signature string "increment(int)" (no marker character) against the class
Counter declaring increment() and increment(int) yields NoMatch, because
the resolver always skips the first character as the SIGNAL/SLOT code
marker: the extracted method name is "ncrement". -/
theorem c2_unmarked_signature_counterexample :
    handleSignalOrSlot univCounter 0 ("increment(int)".data) 5 = none ∧
    strTrim ((("increment(int)".data).drop 1).take 8) = "ncrement".data := by
  exact ⟨by decide, by decide⟩

/-- Claim C2 (amended): with the leading code marker character produced
by the SIGNAL/SLOT macros (here "1"), resolving "1increment(int)" against
Counter returns increment(int), resolving "1increment()" returns the
zero-argument overload, and resolving "1increment(QString)" returns
NoMatch. -/
theorem c2_counter_end_to_end :
    handleSignalOrSlot univCounter 0 ("1increment(int)".data) 5 = some incInt ∧
    handleSignalOrSlot univCounter 0 ("1increment()".data) 5 = some inc0 ∧
    handleSignalOrSlot univCounter 0 ("1increment(QString)".data) 5 = none := by
  exact ⟨by decide, by decide, by decide⟩

/-- Claim C4: the candidate walk does NOT terminate on every hierarchy.
With the single class (id 0) declaring a d_func accessor whose result
type is a pointer to the class itself — legal C++ — and a searched name
matching no method, every amount of fuel is exhausted: each iteration
scans the class, finds d_func, reaches the end of the (empty) base chain
with no candidates, redirects back to class 0 with the d_func slot reset,
and repeats.  The redirection is taken unboundedly often, not once. -/
theorem c4_dfunc_cycle_diverges :
    ∀ fuel : Nat, lookUpCandidates univLoop ("foo".data) fuel (some 0) none [] = none := by
  intro fuel
  induction fuel with
  | zero => rfl
  | succ n ih =>
    rw [show lookUpCandidates univLoop ("foo".data) (n + 1) (some 0) none []
        = lookUpCandidates univLoop ("foo".data) n (some 0) none [] from rfl]
    exact ih

/-- Claim C5 counterexample: in the scan for the next top-level comma or
closing paren, a comma inside a plain parenthesis group IS treated as a
terminator: scanning "g(a,b))" (the argument region of "2m(g(a,b))")
stops after three characters, on the comma inside the group opened by the
paren at offset 1, splitting the fragment "g(a"; the whole signature then
fails to tokenize.  The depth counter only operates inside an
angle-bracket group. -/
theorem c5_paren_comma_counterexample :
    scanArgL ("g(a,b))".data) = 3 ∧ ("g(a,b))".data).getD 3 ' ' = ',' ∧
    strTrim (("g(a,b))".data).take 3) = "g(a".data ∧
    tokenizeSignature ("2m(g(a,b))".data) = none := by
  exact ⟨by decide, by decide, by decide, by decide⟩

/-- Claim C6 counterexample: the signature string "f(QMap<int,QString>,int)"
itself is rejected as not a signature (NoMatch) because its left paren
sits at index 1 < 2 — the first character of a signature is the skipped
marker — so neither tokenization nor resolution succeeds on it, even
against a class declaring a matching f. -/
theorem c6_unmarked_nested_counterexample :
    tokenizeSignature ("f(QMap<int,QString>,int)".data) = none ∧
    handleSignalOrSlot univMap 0 ("f(QMap<int,QString>,int)".data) 5 = none := by
  exact ⟨by decide, by decide⟩

/-- Claim C6 (amended): with a leading marker character,
"2f(QMap<int,QString>,int)" tokenizes to method name "f" and exactly the
two argument fragments "QMap<int,QString>" and "int" — the comma inside
the angle-bracket group does not split the first argument — and the full
resolution against a class declaring f(QMap<int,QString>, int) resolves
to that declaration. -/
theorem c6_nested_signature_tokenizes :
    tokenizeSignature ("2f(QMap<int,QString>,int)".data)
      = some ("f".data, ["QMap<int,QString>".data, "int".data]) ∧
    handleSignalOrSlot univMap 0 ("2f(QMap<int,QString>,int)".data) 5 = some fMapM := by
  exact ⟨by decide, by decide⟩

/-- Claim C8 counterexample: the comparison loop judges "unsigned int"
UNequal to "int" (in either operand order): the skippable unit is the
eight characters "nsigned " at a position where the scan stands on an n,
which never applies at the initial u of "unsigned". -/
theorem c8_unsigned_counterexample :
    typeMatch ("unsigned int".data) ("int".data) = false ∧
    typeMatch ("int".data) ("unsigned int".data) = false := by
  exact ⟨by decide, by decide⟩

/-- Claim C8 (amended): the fragment "const QString &" is stripped to
"QString" and judged equal to the parameter type QString; a fragment
"QString" is judged equal to a parameter of type const QString & (whose
reference and const are stripped before printing); "uint" is judged equal
to "unsigned int" in either order, the sequence "nsigned " being
skippable after a matched u; "unsigned int" is judged unequal to "int";
and "QString" is judged unequal to "QStringList". -/
theorem c8_normalizer_equivalences :
    stripConstAmp ("const QString &".data) = "QString".data ∧
    argMatches (stripConstAmp ("const QString &".data)) ⟨false, false, "QString".data⟩
      = true ∧
    argMatches ("QString".data) ⟨true, true, "QString".data⟩ = true ∧
    typeMatch ("uint".data) ("unsigned int".data) = true ∧
    typeMatch ("unsigned int".data) ("uint".data) = true ∧
    typeMatch ("QString".data) ("QStringList".data) = false := by
  exact ⟨by decide, by decide, by decide, by decide, by decide, by decide⟩

/-- Claim C9: the final filter keeps a candidate exactly when its minimum
required argument count does not exceed the number of supplied arguments,
or it declares exactly one more parameter than supplied and that extra
trailing parameter prints as QPrivateSignal; every other candidate
requiring more arguments is dropped. -/
theorem c9_final_filter_spec :
    ∀ (argCount : Nat) (cs : List Method) (m : Method),
      m ∈ finalFilter argCount cs ↔
        m ∈ cs ∧ (m.minRequiredArguments ≤ argCount ∨
          (m.params.length = argCount + 1 ∧
            printedParam m argCount = "QPrivateSignal".data)) := by
  intro a cs m
  rw [finalFilter, List.mem_filter]
  refine and_congr_right fun _ => ?_
  by_cases h1 : a < m.minRequiredArguments
  · by_cases h2 : m.params.length = a + 1
    · by_cases h3 : printedParam m a = "QPrivateSignal".data
      · simp [finalKeep, h1, h2, h3]
      · simp [finalKeep, h1, h2, h3]
    · simp [finalKeep, h1, h2]
  · simp [finalKeep, h1, Nat.le_of_not_lt h1]

/-- Claim C10: for invokeMethod call sites the string is a bare method
name; a use is registered if and only if the name lookup returns exactly
one method, and whenever the lookup returns zero or two-or-more
candidates no use is registered — no tie-break by enumeration order. -/
theorem c10_invoke_unique_lookup :
    (∀ (univ : List ClassDecl) (objClass : Nat) (methodName : Str) (fuel : Nat)
        (m : Method), methodName ≠ [] →
        (handleInvokeMethod univ objClass methodName fuel = some m ↔
          lookUpCandidates univ methodName fuel (some objClass) none [] = some [m])) ∧
    (∀ (univ : List ClassDecl) (objClass : Nat) (methodName : Str) (fuel : Nat)
        (cs : List Method),
        lookUpCandidates univ methodName fuel (some objClass) none [] = some cs →
        cs.length ≠ 1 → handleInvokeMethod univ objClass methodName fuel = none) := by
  constructor
  · intro univ oc mn fuel m hmn
    rw [handleInvokeMethod, if_neg hmn]
    cases h : lookUpCandidates univ mn fuel (some oc) none [] with
    | none => simp
    | some cs =>
      cases cs with
      | nil => simp
      | cons x xs =>
        cases xs with
        | nil => simp
        | cons y ys => simp

  · intro univ oc mn fuel cs hlk hlen
    rw [handleInvokeMethod]
    by_cases hmn : mn = []
    · rw [if_pos hmn]
    · rw [if_neg hmn, hlk]
      cases cs with
      | nil => rfl
      | cons x xs =>
        cases xs with
        | nil => exact absurd rfl hlen
        | cons y ys => rfl

/-- Claim C10 witness: in the Counter universe the overloaded name
"increment" locates two candidates, so no use is registered; the iff of
the theorem instantiates at that concrete input. -/
theorem c10_invoke_unique_lookup_witness :
    (handleInvokeMethod univCounter 0 ("increment".data) 5 = some inc0 ↔
      lookUpCandidates univCounter ("increment".data) 5 (some 0) none []
        = some [inc0]) ∧
    handleInvokeMethod univCounter 0 ("increment".data) 5 = none := by
  exact ⟨c10_invoke_unique_lookup.1 univCounter 0 ("increment".data) 5 inc0 (by decide),
    c10_invoke_unique_lookup.2 univCounter 0 ("increment".data) 5 [inc0, incInt]
      (by decide) (by decide)⟩

/-- Unfolding of the scanner inside an angle-bracket group: one character
is consumed, the counters are stepped, and the subloop is left when a
counter became negative. -/
theorem scanComb_angle_cons (c : Char) (cs : Str) (d t : Int) :
    scanComb (c :: cs) (some (d, t)) =
      1 + scanComb cs (if (angleStep c d t).1 < 0 ∨ (angleStep c d t).2 < 0
        then none else some (angleStep c d t)) := rfl

/-- One iteration of the candidate walk at a present, defined class:
scan the class, then follow the first base, or redirect through the
d_func slot when the chain ends with no candidate, or stop. -/
theorem lookUp_step (univ : List ClassDecl) (mn : Str) (fuel : Nat) (cid : Nat)
    (cls : ClassDecl) (dF : Option Method) (cands : List Method)
    (hget : univ.get? cid = some cls) (hdef : cls.defined = true) :
    lookUpCandidates univ mn (fuel + 1) (some cid) dF cands =
      (match cls.firstBase with
       | some b => lookUpCandidates univ mn fuel (some b) (dFuncUpdate cls dF)
           (cands ++ cls.methods.filter (methodMatches mn))
       | none =>
         match dFuncUpdate cls dF, cands ++ cls.methods.filter (methodMatches mn) with
         | some d, [] =>
           lookUpCandidates univ mn fuel (Option.join d.resultPointee) none []
         | _, _ => some (cands ++ cls.methods.filter (methodMatches mn))) := by
  rw [lookUpCandidates, hget]
  simp only [hdef, eq_self_iff_true, if_true]

/-- Claim C3 counterexample: resolving the exact signature string
"slotName(int)" (no marker character) against class A — whose only
method is the d_func accessor returning a pointer to class B declaring
slotName(int) — yields NoMatch: the resolver consumes the first
character as the SIGNAL/SLOT marker, so the searched name is "lotName". -/
theorem c3_unmarked_slot_counterexample :
    handleSignalOrSlot univAB 0 ("slotName(int)".data) 5 = none := by decide

/-- Claim C3 (amended): when the walk runs down a base chain of defined
classes none of which declares the searched name (one unit of fuel per
chain element), and the d_func accessor accumulated along the chain is d,
then on exhausting the chain the locator redirects the walk to the class
pointed to by the result type of d and continues the same search from
there; in particular resolving "1slotName(int)" (with the leading marker
character) against A succeeds and returns B::slotName. -/
theorem c3_dfunc_redirect :
    (∀ (univ : List ClassDecl) (methodName : Str) (c0 : Nat) (rest : List Nat)
        (acc : Option Method) (d : Method) (fuel : Nat),
        chainLinked univ methodName (c0 :: rest) →
        chainDFunc univ acc (c0 :: rest) = some d →
        lookUpCandidates univ methodName (fuel + rest.length + 1) (some c0) acc []
          = lookUpCandidates univ methodName fuel (Option.join d.resultPointee) none []) ∧
    handleSignalOrSlot univAB 0 ("1slotName(int)".data) 5 = some slotM := by
  refine ⟨?_, by decide⟩
  intro univ mn c0 rest
  induction rest generalizing c0 with
  | nil =>
    intro acc d fuel hlink hdf
    obtain ⟨cls, hget, hdef, hfil, hbase⟩ := hlink
    have hdf2 : dFuncUpdate cls acc = some d := by
      rw [chainDFunc, hget] at hdf
      exact hdf
    rw [lookUp_step univ mn (fuel + List.length ([] : List Nat)) c0 cls acc [] hget hdef,
      hbase, List.nil_append, hfil, hdf2]
    norm_num
  | cons c1 cs ih =>
    intro acc d fuel hlink hdf
    obtain ⟨⟨cls, hget, hdef, hfil, hbase⟩, hrest⟩ := hlink
    have hdf2 : chainDFunc univ (dFuncUpdate cls acc) (c1 :: cs) = some d := by
      rw [chainDFunc, hget] at hdf
      exact hdf
    rw [lookUp_step univ mn (fuel + (c1 :: cs).length) c0 cls acc [] hget hdef,
      hbase, List.nil_append, hfil]
    exact ih c1 (dFuncUpdate cls acc) d fuel hrest hdf2

/-- Claim C3 witness: in the A/B universe the chain consisting of class A
alone is exhausted with no candidate and d_func accumulated, and the
theorem instantiates to the redirection of the walk to B
(the pointee of the result type of d_func). -/
theorem c3_dfunc_redirect_witness :
    lookUpCandidates univAB ("slotName".data) 3 (some 0) none []
      = lookUpCandidates univAB ("slotName".data) 2 (Option.join dfA.resultPointee)
          none [] := by
  have h := c3_dfunc_redirect.1 univAB ("slotName".data) 0 [] none dfA 2 ?hl ?hd
  · exact h
  case hl =>
    show ∃ cls, univAB.get? 0 = some cls ∧ cls.defined = true ∧
      cls.methods.filter (methodMatches ("slotName".data)) = [] ∧ cls.firstBase = none
    exact ⟨⟨true, [dfA], none⟩, rfl, rfl, by decide, rfl⟩
  case hd => rfl

/-- Claim C5 (amended): commas are protected from splitting only inside
an angle-bracket group.  When the outer scan meets a left angle bracket
it enters the subloop with both counters zero; inside the subloop, for
counters that have not gone negative, a comma is consumed without
terminating the scan and without touching the counters, an opening paren
increments the depth counter, and a right angle bracket leaves both
counters unchanged whenever the depth counter is nonzero (the
template-angle counter is only active at depth zero).  By contrast a
comma inside a paren group that is NOT enclosed in an angle-bracket group
is a terminator: directly after an opening paren the scan stops on the
comma, having consumed only the paren. -/
theorem c5_angle_group_scanning :
    (∀ cs : Str, scanArgL ('<' :: cs) = 1 + scanComb cs (some (0, 0))) ∧
    (∀ (cs : Str) (d t : Int), 0 ≤ d → 0 ≤ t →
        scanComb (',' :: cs) (some (d, t)) = 1 + scanComb cs (some (d, t))) ∧
    (∀ (cs : Str) (d t : Int), 0 ≤ d → 0 ≤ t →
        scanComb ('(' :: cs) (some (d, t)) = 1 + scanComb cs (some (d + 1, t))) ∧
    (∀ (cs : Str) (d t : Int), 0 ≤ d → 0 ≤ t → d ≠ 0 →
        scanComb ('>' :: cs) (some (d, t)) = 1 + scanComb cs (some (d, t))) ∧
    (∀ cs : Str, scanArgL ('(' :: ',' :: cs) = 1) := by
  refine ⟨?_, ?_, ?_, ?_, ?_⟩
  · intro cs
    simp [scanArgL, scanComb]
  · intro cs d t hd ht
    have ha : angleStep ',' d t = (d, t) := by simp [angleStep]
    rw [scanComb_angle_cons, ha]
    rw [if_neg (by simp; omega)]
  · intro cs d t hd ht
    have ha : angleStep '(' d t = (d + 1, t) := by simp [angleStep]
    rw [scanComb_angle_cons, ha]
    rw [if_neg (by simp; omega)]
  · intro cs d t hd ht hne
    have ha : angleStep '>' d t = (d, t) := by simp [angleStep, hne]
    rw [scanComb_angle_cons, ha]
    rw [if_neg (by simp; omega)]
  · intro cs
    simp [scanArgL, scanComb]

/-- Claim C5 witness: the angle-subloop steps of the theorem applied at
concrete counters and strings. -/
theorem c5_angle_group_scanning_witness :
    scanComb (',' :: "x>".data) (some (0, 0)) = 1 + scanComb ("x>".data) (some (0, 0)) ∧
    scanComb ['('] (some (0, 0)) = 1 + scanComb [] (some (1, 0)) ∧
    scanComb ['>'] (some (1, 0)) = 1 + scanComb [] (some (1, 0)) := by
  refine ⟨c5_angle_group_scanning.2.1 _ 0 0 le_rfl le_rfl, ?_, ?_⟩
  · have h := c5_angle_group_scanning.2.2.1 ([] : Str) 0 0 le_rfl le_rfl
    simpa using h
  · exact c5_angle_group_scanning.2.2.2.1 ([] : Str) 1 0 (by norm_num) le_rfl (by norm_num)

/-- The tokenizing loop on a joined argument list: when every argument is
scanned over completely (scanSkips), trims to something nonempty, and is
not of the "const ... &" shape, the loop recovers exactly the trimmed
arguments, for any argument counter and any sufficient fuel. -/
theorem tokenizeArgsF_round :
    ∀ (args : List Str) (argIdx fuel : Nat), args ≠ [] →
    (∀ a ∈ args, scanSkips a ∧ strTrim a ≠ [] ∧ isConstAmp (strTrim a) = false) →
    (joinArgs args ++ [')']).length ≤ fuel →
    tokenizeArgsF fuel (joinArgs args ++ [')']) argIdx = some (args.map strTrim) := by
  intro args
  induction args with
  | nil => intro argIdx fuel hne; exact absurd rfl hne
  | cons a rest ih =>
    intro argIdx fuel _ hall hfuel
    obtain ⟨hskip, hne, hca⟩ := hall a (List.mem_cons_self a rest)
    cases rest with
    | nil =>
      rw [joinArgs] at hfuel ⊢
      cases fuel with
      | zero =>
        exfalso
        simp only [List.length_append, List.length_cons, List.length_nil,
          Nat.le_zero] at hfuel
        omega
      | succ n =>
        have hremne : a ++ [')'] ≠ [] := by simp
        have hk : scanArgL (a ++ [')']) = a.length := by
          rw [hskip [')'], scanArgL_rparen]
          exact Nat.add_zero _
        have hklen : ¬ scanArgL (a ++ [')']) = (a ++ [')']).length := by
          rw [hk, List.length_append, List.length_cons, List.length_nil]
          omega
        have hfrag : stripConstAmp (strTrim ((a ++ [')']).take (scanArgL (a ++ [')']))))
            = strTrim a := by
          rw [hk, take_len_append]
          simp [stripConstAmp, hca]
        have hgetD : (a ++ [')']).getD (scanArgL (a ++ [')'])) ' ' = ')' := by
          rw [hk, getD_len_append]
          rfl
        have hdrop : (a ++ [')']).drop (scanArgL (a ++ [')']) + 1) = [] := by
          rw [hk, drop_len_add_append]
          rfl
        have hc1 : ¬(strTrim a = [] ∧
            (a ++ [')']).getD (scanArgL (a ++ [')'])) ' ' = ')' ∧ argIdx = 0) :=
          fun h => hne h.1
        simp only [tokenizeArgsF, if_neg hremne, if_neg hklen, hfrag, if_neg hc1,
          if_pos hgetD, if_pos hdrop, List.map_cons, List.map_nil]
    | cons b t =>
      rw [joinArgs] at hfuel ⊢
      have hshape : (a ++ ',' :: joinArgs (b :: t)) ++ [')']
          = a ++ ',' :: (joinArgs (b :: t) ++ [')']) := by simp
      rw [hshape] at hfuel ⊢
      cases fuel with
      | zero =>
        exfalso
        simp only [List.length_append, List.length_cons, Nat.le_zero] at hfuel
        omega
      | succ n =>
        have hremne : a ++ ',' :: (joinArgs (b :: t) ++ [')']) ≠ [] := by simp
        have hk : scanArgL (a ++ ',' :: (joinArgs (b :: t) ++ [')'])) = a.length := by
          rw [hskip (',' :: (joinArgs (b :: t) ++ [')'])), scanArgL_comma]
          exact Nat.add_zero _
        have hklen : ¬ scanArgL (a ++ ',' :: (joinArgs (b :: t) ++ [')']))
            = (a ++ ',' :: (joinArgs (b :: t) ++ [')'])).length := by
          rw [hk, List.length_append, List.length_cons]
          omega
        have hfrag : stripConstAmp (strTrim ((a ++ ',' :: (joinArgs (b :: t) ++ [')'])).take
            (scanArgL (a ++ ',' :: (joinArgs (b :: t) ++ [')'])))))
            = strTrim a := by
          rw [hk, take_len_append]
          simp [stripConstAmp, hca]
        have hgetD : (a ++ ',' :: (joinArgs (b :: t) ++ [')'])).getD
            (scanArgL (a ++ ',' :: (joinArgs (b :: t) ++ [')']))) ' ' = ',' := by
          rw [hk, getD_len_append]
          rfl
        have hdrop : (a ++ ',' :: (joinArgs (b :: t) ++ [')'])).drop
            (scanArgL (a ++ ',' :: (joinArgs (b :: t) ++ [')'])) + 1)
            = joinArgs (b :: t) ++ [')'] := by
          rw [hk, drop_len_add_append]
          rfl
        have hfl : (joinArgs (b :: t) ++ [')']).length ≤ n := by
          rw [List.length_append, List.length_cons] at hfuel
          omega
        have hrec := ih (argIdx + 1) n (by simp)
          (fun x hx => hall x (List.mem_cons_of_mem _ hx)) hfl
        have hc1 : ¬(strTrim a = [] ∧
            (a ++ ',' :: (joinArgs (b :: t) ++ [')'])).getD
              (scanArgL (a ++ ',' :: (joinArgs (b :: t) ++ [')']))) ' ' = ')' ∧
            argIdx = 0) := fun h => hne h.1
        have hterm : ¬((a ++ ',' :: (joinArgs (b :: t) ++ [')'])).getD
            (scanArgL (a ++ ',' :: (joinArgs (b :: t) ++ [')']))) ' ' = ')') := by
          rw [hgetD]
          decide
        simp only [tokenizeArgsF, if_neg hremne, if_neg hklen, hfrag, if_neg hc1,
          if_neg hterm, hdrop, hrec, Option.map_some', List.map_cons, List.map_nil]

/-- Claim C7 counterexample: the round trip fails as stated.  Tokenizing
"ab(int)" (built from name "ab" and args ["int"]) recovers the method
name "b", not "ab", because the first character is consumed as the
marker; tokenizing "1f(const QString &)" recovers the argument "QString",
not "const QString &" (the fragment is const/reference stripped, which is
not mere trimming); and tokenizing "1f()" (built from args [""]) recovers
the empty argument list, not [""]. -/
theorem c7_round_trip_counterexample :
    tokenizeSignature ("ab(int)".data) = some ("b".data, ["int".data]) ∧
    tokenizeSignature ("1f(const QString &)".data) = some ("f".data, ["QString".data]) ∧
    tokenizeSignature ("1f()".data) = some ("f".data, ([] : List Str)) := by
  exact ⟨by decide, by decide, by decide⟩

/-- Claim C7 (amended): the round trip holds for marker-prefixed
signatures.  For every marker character (not whitespace, a paren, or
NUL), every nonempty name containing no paren and no NUL, and every
argument list whose members are scanned over completely by the argument
scanner (no terminating top-level comma or paren, balanced nested
groups), trim to something nonempty, are not of the "const ... &" shape
and contain no NUL, tokenizing marker + name + "(" + join(args, ",") +
")" recovers exactly the trimmed name and the trimmed argument
sequence. -/
theorem c7_round_trip :
    ∀ (marker : Char) (nm : Str) (args : List Str),
      isTrimChar marker = false → marker ≠ '(' → marker ≠ ')' → marker ≠ nulChar →
      nm ≠ [] → '(' ∉ nm → ')' ∉ nm → nulChar ∉ nm →
      (∀ a ∈ args, scanSkips a ∧ strTrim a ≠ [] ∧ isConstAmp (strTrim a) = false ∧
        nulChar ∉ a) →
      tokenizeSignature (marker :: (nm ++ '(' :: (joinArgs args ++ [')'])))
        = some (strTrim nm, args.map strTrim) := by
  intro marker nm args hmt hm1 hm2 hm3 hnm hnp hnr hnn hargs
  have h1 : 0 < nm.length := List.length_pos.mpr hnm
  have htrim : strTrim (marker :: (nm ++ '(' :: (joinArgs args ++ [')'])))
      = marker :: (nm ++ '(' :: (joinArgs args ++ [')'])) := by
    have hcat : marker :: (nm ++ '(' :: (joinArgs args ++ [')']))
        = marker :: ((nm ++ '(' :: joinArgs args) ++ [')']) := by simp
    rw [hcat]
    exact strTrim_marker marker _ ')' hmt (by decide)
  have hlen4 : ¬ (marker :: (nm ++ '(' :: (joinArgs args ++ [')']))).length < 4 := by
    simp only [List.length_cons, List.length_append]
    omega
  have hnomem : nulChar ∉ marker :: (nm ++ '(' :: (joinArgs args ++ [')'])) := by
    intro hm
    rcases List.mem_cons.mp hm with h | h
    · exact hm3 h.symm
    rcases List.mem_append.mp h with h | h
    · exact hnn h
    rcases List.mem_cons.mp h with h | h
    · exact absurd h (by decide)
    rcases List.mem_append.mp h with h | h
    · rcases mem_joinArgs _ _ h with h' | ⟨a, ha, hx⟩
      · exact absurd h' (by decide)
      · exact (hargs a ha).2.2.2 hx
    · rcases List.mem_cons.mp h with h | h
      · exact absurd h (by decide)
      · cases h
  have hnul : findChar nulChar (marker :: (nm ++ '(' :: (joinArgs args ++ [')']))) = none :=
    findChar_not_mem _ _ hnomem
  have hlp : findChar '(' (marker :: (nm ++ '(' :: (joinArgs args ++ [')'])))
      = some (nm.length + 1) := by
    have hpre : '(' ∉ marker :: nm := by
      intro hm
      rcases List.mem_cons.mp hm with h | h
      · exact hm1 h.symm
      · exact hnp h
    have hshape : marker :: (nm ++ '(' :: (joinArgs args ++ [')']))
        = (marker :: nm) ++ ('(' :: (joinArgs args ++ [')'])) := by simp
    rw [hshape, findChar_append _ _ _ hpre]
    simp [findChar]
  obtain ⟨j, hj⟩ := findChar_mem ')' (joinArgs args ++ [')'])
    (List.mem_append_right _ (List.mem_singleton.mpr rfl))
  have hrpe : findChar ')' (marker :: (nm ++ '(' :: (joinArgs args ++ [')'])))
      = some (j + (nm.length + 2)) := by
    have hpre : ')' ∉ (marker :: nm) ++ ['('] := by
      intro hm
      rcases List.mem_append.mp hm with h | h
      · rcases List.mem_cons.mp h with h' | h'
        · exact hm2 h'.symm
        · exact hnr h'
      · rcases List.mem_cons.mp h with h' | h'
        · exact absurd h' (by decide)
        · cases h'
    have hshape : marker :: (nm ++ '(' :: (joinArgs args ++ [')']))
        = ((marker :: nm) ++ ['(']) ++ (joinArgs args ++ [')']) := by simp
    rw [hshape, findChar_append _ _ _ hpre, hj]
    simp only [Option.map_some', List.length_append, List.length_cons, List.length_nil]
  have hcond : ¬(j + (nm.length + 2) < nm.length + 1 ∨ nm.length + 1 < 2) := by omega
  have hcheck : checkSignature (marker :: (nm ++ '(' :: (joinArgs args ++ [')'])))
      = some (marker :: (nm ++ '(' :: (joinArgs args ++ [')'])), nm.length + 1) := by
    simp only [checkSignature, htrim, if_neg hlen4, hnul, hlp, hrpe, if_neg hcond]
  have htakenm : ((marker :: (nm ++ '(' :: (joinArgs args ++ [')']))).drop 1).take
      (nm.length + 1 - 1) = nm := by
    show (nm ++ '(' :: (joinArgs args ++ [')'])).take (nm.length + 1 - 1) = nm
    simp only [Nat.add_sub_cancel]
    exact take_len_append nm _
  have hdropbody : (marker :: (nm ++ '(' :: (joinArgs args ++ [')']))).drop
      (nm.length + 1 + 1) = joinArgs args ++ [')'] := by
    have hshape : marker :: (nm ++ '(' :: (joinArgs args ++ [')']))
        = ((marker :: nm) ++ ['(']) ++ (joinArgs args ++ [')']) := by simp
    have hlen : ((marker :: nm) ++ ['(']).length + 0 = nm.length + 1 + 1 := by simp
    rw [hshape, ← hlen, drop_len_add_append, List.drop_zero]
  have hargsres : tokenizeArgs (joinArgs args ++ [')']) 0 = some (args.map strTrim) := by
    cases args with
    | nil => rfl
    | cons a rest =>
      rw [tokenizeArgs]
      exact tokenizeArgsF_round (a :: rest) 0 _ (by simp)
        (fun x hx => ⟨(hargs x hx).1, (hargs x hx).2.1, (hargs x hx).2.2.1⟩)
        (Nat.le_refl _)
  simp only [tokenizeSignature, hcheck, hdropbody, hargsres, htakenm, Option.map_some']

/-- Claim C7 witness: the round trip applied at marker 1, name f and the
single argument int. -/
theorem c7_round_trip_witness :
    tokenizeSignature ("1f(int)".data) = some ("f".data, ["int".data]) := by
  have h := c7_round_trip '1' ("f".data) ["int".data] (by decide) (by decide) (by decide)
    (by decide) (by decide) (by decide) (by decide) (by decide) ?ha
  · exact h.trans (by decide)
  case ha =>
    intro a ha
    simp only [List.mem_singleton] at ha
    subst ha
    exact ⟨scanSkips_plain _ (by decide), by decide, by decide, by decide⟩
